import Mathlib

/-!
Shallow embedding of the gochain consensus core (blockchain.go, the
proof-of-work file and the proof-of-stake file) and proofs of the spec's
claims about it.

Bytes are `List Nat` (each entry a byte value); Go `int64` values are `Int`
with explicit two's-complement reduction mod 2^64 where the code converts;
Go `uint64` values are `Nat` with explicit `% 2^64` where Go arithmetic
wraps.  Code that can panic at runtime is embedded with `Option`, `none`
standing for the panic.  Both consensus algorithms are parametrised by the
hash function `H` (the source uses `crypto/sha256`, embedded below as
`sha256`; the spec's HashCodec contract says any 256-bit cryptographic hash
satisfies it).
-/

namespace GoChain

/-- Byte strings: a byte slice is a list of byte values. -/
abbrev Bytes := List Nat

/-- Mirror of the Go struct `Block` in blockchain.go. -/
structure Block where
  Timestamp : Int
  Data : Bytes
  PrevBlockHash : Bytes
  Hash : Bytes
  ValidatorID : Bytes
deriving DecidableEq, Repr

/-- Go conversion `uint64(num)` of an `int64`: two's-complement reduction. -/
def toU64 (num : Int) : Nat := (num % (2 ^ 64 : Int)).toNat

/-- Go conversion `int(u)` of a `uint64` on a 64-bit platform: values with the
top bit set become negative. -/
def ofU64 (u : Nat) : Int := if u < 2 ^ 63 then (u : Int) else (u : Int) - 2 ^ 64

/-- Mirror of `IntToHex`: `binary.Write(buff, binary.BigEndian, num)` on an
`int64` emits the eight bytes `byte(u shifted by 56), ..., byte(u)` of
`u = uint64(num)` (encoding/binary `PutUint64`). -/
def IntToHex (num : Int) : Bytes :=
  let u := toU64 num
  [u / 2 ^ 56 % 256, u / 2 ^ 48 % 256, u / 2 ^ 40 % 256, u / 2 ^ 32 % 256,
   u / 2 ^ 24 % 256, u / 2 ^ 16 % 256, u / 2 ^ 8 % 256, u % 256]

/-- Mirror of `binary.BigEndian.Uint64 b`: big-endian read of the first eight
bytes.  Go panics when `b` is shorter than eight bytes; the only caller
(`ProofOfWork.Validate`) guards the length explicitly in this embedding, so
the catch-all branch is never reached from guarded code. -/
def uint64BE : Bytes → Nat
  | b0 :: b1 :: b2 :: b3 :: b4 :: b5 :: b6 :: b7 :: _ =>
      b0 * 2 ^ 56 + b1 * 2 ^ 48 + b2 * 2 ^ 40 + b3 * 2 ^ 32 +
      b4 * 2 ^ 24 + b5 * 2 ^ 16 + b6 * 2 ^ 8 + b7
  | _ => 0

/-- Mirror of `big.Int.SetBytes`: bytes as an unsigned big-endian integer. -/
def hashInt (l : Bytes) : Nat := l.foldl (fun a b => a * 256 + b) 0

/-- Mirror of `bytes.Join`: concatenate the slices with `sep` between them. -/
def bytesJoin (sep : Bytes) : List Bytes → Bytes
  | [] => []
  | [x] => x
  | x :: xs => x ++ sep ++ bytesJoin sep xs

/-- Big-endian fixed-width byte encoding of a natural number, as the spec
describes it (most significant byte first, `w` bytes). -/
def natBE : Nat → Nat → Bytes
  | 0, _ => []
  | w + 1, n => natBE w (n / 256) ++ [n % 256]

/-! SHA-256 (crypto/sha256), embedded as a pure function on byte lists. -/

/-- Truncation of a `Nat` to a 32-bit word. -/
def w32 (n : Nat) : Nat := n % 2 ^ 32

/-- Right rotation of a 32-bit word by `n` bits. -/
def rotr32 (n x : Nat) : Nat := (x >>> n) ||| w32 (x <<< (32 - n))

/-- SHA-256 big sigma 0. -/
def bsig0 (x : Nat) : Nat := rotr32 2 x ^^^ rotr32 13 x ^^^ rotr32 22 x

/-- SHA-256 big sigma 1. -/
def bsig1 (x : Nat) : Nat := rotr32 6 x ^^^ rotr32 11 x ^^^ rotr32 25 x

/-- SHA-256 small sigma 0. -/
def ssig0 (x : Nat) : Nat := rotr32 7 x ^^^ rotr32 18 x ^^^ (x >>> 3)

/-- SHA-256 small sigma 1. -/
def ssig1 (x : Nat) : Nat := rotr32 17 x ^^^ rotr32 19 x ^^^ (x >>> 10)

/-- SHA-256 round constants (FIPS 180-4, written in decimal). -/
def sha256K : List Nat :=
  [1116352408, 1899447441, 3049323471, 3921009573, 961987163, 1508970993,
   2453635748, 2870763221, 3624381080, 310598401, 607225278, 1426881987,
   1925078388, 2162078206, 2614888103, 3248222580, 3835390401, 4022224774,
   264347078, 604807628, 770255983, 1249150122, 1555081692, 1996064986,
   2554220882, 2821834349, 2952996808, 3210313671, 3336571891, 3584528711,
   113926993, 338241895, 666307205, 773529912, 1294757372, 1396182291,
   1695183700, 1986661051, 2177026350, 2456956037, 2730485921, 2820302411,
   3259730800, 3345764771, 3516065817, 3600352804, 4094571909, 275423344,
   430227734, 506948616, 659060556, 883997877, 958139571, 1322822218,
   1537002063, 1747873779, 1955562222, 2024104815, 2227730452, 2361852424,
   2428436474, 2756734187, 3204031479, 3329325298]

/-- SHA-256 initial hash state (FIPS 180-4, written in decimal). -/
def sha256H0 : List Nat :=
  [1779033703, 3144134277, 1013904242, 2773480762,
   1359893119, 2600822924, 528734635, 1541459225]

/-- Group bytes into big-endian 32-bit words. -/
def toWords : Bytes → List Nat
  | b0 :: b1 :: b2 :: b3 :: rest =>
      (((b0 * 256 + b1) * 256 + b2) * 256 + b3) :: toWords rest
  | _ => []

/-- Append the next message-schedule word to a schedule prefix. -/
def schedStep (w : List Nat) : List Nat :=
  let i := w.length
  let g := fun k => w.getD (i - k) 0
  w ++ [w32 (ssig1 (g 2) + g 7 + ssig0 (g 15) + g 16)]

/-- Extend the 16-word schedule by `n` further words. -/
def schedExtend : Nat → List Nat → List Nat
  | 0, w => w
  | n + 1, w => schedExtend n (schedStep w)

/-- One SHA-256 compression round on the eight-word working state. -/
def compRound (st : List Nat) (kw : Nat × Nat) : List Nat :=
  match st with
  | [a, b, c, d, e, f, g, h] =>
    let s1 := bsig1 e
    let ch := (e &&& f) ^^^ (((2 ^ 32 - 1) ^^^ e) &&& g)
    let t1 := h + s1 + ch + kw.1 + kw.2
    let s0 := bsig0 a
    let mj := (b &&& c) ^^^ ((a &&& b) ^^^ (a &&& c))
    [w32 (t1 + s0 + mj), a, b, c, w32 (d + t1), e, f, g]
  | other => other

/-- Process one 64-byte chunk into the running hash state. -/
def sha256Chunk (h : List Nat) (blk : Bytes) : List Nat :=
  let w := schedExtend 48 (toWords blk)
  let st := (sha256K.zip w).foldl compRound h
  (h.zip st).map fun p => w32 (p.1 + p.2)

/-- Split a byte list into 64-byte chunks; the fuel argument (instantiated
with the list length) only drives termination. -/
def chunks64 : Nat → Bytes → List Bytes
  | 0, _ => []
  | _ + 1, [] => []
  | fuel + 1, l => l.take 64 :: chunks64 fuel (l.drop 64)

/-- SHA-256 padding: append 0x80, zeros to 56 mod 64, then the 8-byte
big-endian bit length. -/
def sha256Pad (m : Bytes) : Bytes :=
  let L := m.length
  let k := (120 - (L + 1) % 64) % 64
  m ++ 128 :: (List.replicate k 0 ++ natBE 8 (L * 8))

/-- SHA-256 of a byte list, as a 32-byte list. -/
def sha256 (m : Bytes) : Bytes :=
  let p := sha256Pad m
  (((chunks64 p.length p).foldl sha256Chunk sha256H0).map (natBE 4)).flatten

/-! Proof of work (the proof-of-work source file). -/

/-- Mirror of the constant `targetBits`. -/
def targetBits : Nat := 16

/-- Mirror of `NewProofOfWork`: the target is 1 shifted left by
`256 - targetBits`. -/
def powTarget : Nat := 1 <<< (256 - targetBits)

/-- Mirror of `math.MaxInt64`. -/
def maxInt64 : Nat := 9223372036854775807

namespace ProofOfWork

/-- Mirror of `ProofOfWork.prepareData`: join, with an empty separator, the
previous hash, the data, and the big-endian encodings of the timestamp, the
difficulty and the nonce. -/
def prepareData (b : Block) (nonce : Int) : Bytes :=
  bytesJoin []
    [b.PrevBlockHash, b.Data, IntToHex b.Timestamp,
     IntToHex (Int.ofNat targetBits), IntToHex nonce]

/-- Mirror of the mining loop of `ProofOfWork.Run`.  The fuel argument counts
the iterations left in `for nonce < math.MaxInt64` (instantiated with
`maxInt64`); on exhaustion the Go loop leaves `nonce = math.MaxInt64` paired
with the hash left over from the previous iteration, which the initial
all-zero `var hash [32]byte` models when the loop never ran. -/
def runLoop (H : Bytes → Bytes) (b : Block) : Nat → Nat → Bytes → Nat × Bytes
  | nonce, 0, lastHash => (nonce, lastHash)
  | nonce, fuel + 1, _ =>
    let hash := H (prepareData b (Int.ofNat nonce))
    if hashInt hash < powTarget then (nonce, hash)
    else runLoop H b (nonce + 1) fuel hash

/-- Mirror of `ProofOfWork.Run`, parametrised by the hash function: scan
nonces from 0 and return `(IntToHex nonce, hash)`. -/
def RunH (H : Bytes → Bytes) (b : Block) : Bytes × Bytes :=
  let r := runLoop H b 0 maxInt64 (List.replicate 32 0)
  (IntToHex (Int.ofNat r.1), r.2)

/-- Mirror of `ProofOfWork.Validate`, parametrised by the hash function.
`none` models the Go runtime panic of `binary.BigEndian.Uint64` on a
`ValidatorID` shorter than eight bytes; otherwise the decoded nonce is
rehashed and compared against the target. -/
def ValidateH (H : Bytes → Bytes) (b : Block) : Option Bool :=
  if b.ValidatorID.length < 8 then none
  else
    let nonce := ofU64 (uint64BE b.ValidatorID)
    some (decide (hashInt (H (prepareData b nonce)) < powTarget))

/-- Source instantiation of `RunH` with `crypto/sha256`. -/
def Run : Block → Bytes × Bytes := RunH sha256

/-- Source instantiation of `ValidateH` with `crypto/sha256`. -/
def Validate : Block → Option Bool := ValidateH sha256

end ProofOfWork

/-! Proof of stake (the proof-of-stake source file). -/

/-- Mirror of the Go struct `Validator`. -/
structure Validator where
  Address : Bytes
  Stake : Nat
  Balance : Nat
deriving DecidableEq, Repr

/-- Mirror of `createMockValidators`: the fixed three-entry registry
(addresses are the byte strings validator1, validator2, validator3). -/
def createMockValidators : List Validator :=
  [⟨[118, 97, 108, 105, 100, 97, 116, 111, 114, 49], 1000, 5000⟩,
   ⟨[118, 97, 108, 105, 100, 97, 116, 111, 114, 50], 2000, 8000⟩,
   ⟨[118, 97, 108, 105, 100, 97, 116, 111, 114, 51], 3000, 10000⟩]

/-- Mirror of the threshold set by `NewProofOfStake`: 1 shifted left by
255. -/
def posThreshold : Nat := 1 <<< 255

namespace ProofOfStake

/-- Mirror of the `totalStake` accumulation in `selectValidator`, with Go
`uint64` wrap-around. -/
def totalStake (validators : List Validator) : Nat :=
  validators.foldl (fun a v => (a + v.Stake) % 2 ^ 64) 0

/-- Mirror of the `accumulator` walk in `selectValidator`: add each stake
(wrapping as `uint64`) and return the first validator for which
`selection <= accumulator`; `none` when the walk falls off the end. -/
def selectLoop (selection : Nat) : List Validator → Nat → Option Validator
  | [], _ => none
  | v :: rest, acc =>
    let acc' := (acc + v.Stake) % 2 ^ 64
    if selection ≤ acc' then some v else selectLoop selection rest acc'

/-- Mirror of `ProofOfStake.selectValidator`.  The draw argument models the
value of `rand.Uint64()`.  `none` models the Go runtime panic (integer divide
by zero) in `rand.Uint64() % totalStake` when the total stake is zero, in
particular on an empty registry; the `validators[0]` fallback after the walk
is `head?`. -/
def selectValidator (validators : List Validator) (draw : Nat) : Option Validator :=
  let total := totalStake validators
  if total = 0 then none
  else
    let selection := draw % total
    match selectLoop selection validators 0 with
    | some v => some v
    | none => validators.head?

/-- Mirror of `ProofOfStake.prepareData`: join, with an empty separator, the
previous hash, the data, the big-endian timestamp, the validator's address
and the big-endian encoding of `int64(validator.Stake)`. -/
def prepareData (b : Block) (v : Validator) : Bytes :=
  bytesJoin []
    [b.PrevBlockHash, b.Data, IntToHex b.Timestamp,
     v.Address, IntToHex (ofU64 v.Stake)]

/-- Mirror of `ProofOfStake.Run`, parametrised by the hash function and the
registry and taking the random draw as an argument: select a validator,
hash the prepared data, and return the address with that hash. -/
def RunH (H : Bytes → Bytes) (validators : List Validator) (draw : Nat)
    (b : Block) : Option (Bytes × Bytes) :=
  (selectValidator validators draw).map fun v => (v.Address, H (prepareData b v))

/-- Mirror of `ProofOfStake.Validate`, parametrised by the hash function and
the registry: true when some validator's recomputed hash is below the
threshold. -/
def ValidateH (H : Bytes → Bytes) (validators : List Validator) (b : Block) : Bool :=
  validators.any fun v => decide (hashInt (H (prepareData b v)) < posThreshold)

/-- Source instantiation of `RunH`: `crypto/sha256` and the registry built by
`NewProofOfStake`. -/
def Run (draw : Nat) : Block → Option (Bytes × Bytes) :=
  RunH sha256 createMockValidators draw

/-- Source instantiation of `ValidateH`: `crypto/sha256` and the registry
built by `NewProofOfStake`. -/
def Validate : Block → Bool := ValidateH sha256 createMockValidators

end ProofOfStake

/-- Mirror of the block literal constructed by `NewBlock` before the
consensus algorithm runs: hash and validator id start empty. -/
def freshBlock (ts : Int) (data prevHash : Bytes) : Block :=
  { Timestamp := ts, Data := data, PrevBlockHash := prevHash,
    Hash := [], ValidatorID := [] }

/-- Hash recomputed, as `ProofOfWork.Validate` does, from a block's recorded
nonce; `none` when the recorded id is too short to decode. -/
def powRecompute (H : Bytes → Bytes) (b : Block) : Option Bytes :=
  if b.ValidatorID.length < 8 then none
  else some (H (ProofOfWork.prepareData b (ofU64 (uint64BE b.ValidatorID))))

/-- Hash recomputed from a block's recorded validator address: look the
address up in the registry and rehash with that validator's stake. -/
def posRecompute (H : Bytes → Bytes) (b : Block) : Option Bytes :=
  (createMockValidators.find? fun v => v.Address == b.ValidatorID).map
    fun v => H (ProofOfStake.prepareData b v)

/-- Spec wording for C6: the cumulative stake of the first `i + 1`
validators, as an unbounded sum. -/
def cumStake (validators : List Validator) (i : Nat) : Nat :=
  ((validators.take (i + 1)).map Validator.Stake).sum

/-- Spec wording for C6: the first validator in registry order whose
cumulative stake meets or exceeds the draw. -/
def specSelect (validators : List Validator) (s : Nat) : Option Validator :=
  ((List.range validators.length).find? fun i => decide (s ≤ cumStake validators i)).bind
    fun i => validators[i]?

/-- Mathematical (unwrapped) total stake of a registry. -/
def sumStakes (validators : List Validator) : Nat :=
  (validators.map Validator.Stake).sum

/-- The assignment `NewBlock` performs after consensus ran: the hash and the
validator id of the block are set from the returned pair. -/
def setMined (b : Block) (validatorID hash : Bytes) : Block :=
  { b with ValidatorID := validatorID, Hash := hash }

/-- A block with only its hash field replaced. -/
def setHash (b : Block) (hash : Bytes) : Block := { b with Hash := hash }

/-- A block with only its validator-id field replaced. -/
def setValidatorID (b : Block) (validatorID : Bytes) : Block :=
  { b with ValidatorID := validatorID }

/-- First mock validator. -/
def mockV1 : Validator := ⟨[118, 97, 108, 105, 100, 97, 116, 111, 114, 49], 1000, 5000⟩

/-- Second mock validator. -/
def mockV2 : Validator := ⟨[118, 97, 108, 105, 100, 97, 116, 111, 114, 50], 2000, 8000⟩

/-- Third mock validator. -/
def mockV3 : Validator := ⟨[118, 97, 108, 105, 100, 97, 116, 111, 114, 51], 3000, 10000⟩

/-! Concrete fixtures used by witnesses and counterexamples. -/

/-- A degenerate hash function whose digest is all zero bytes; it makes the
proof-of-work scan succeed immediately, which lets witnesses instantiate the
hash-generic theorems. -/
def hashAllZeros : Bytes → Bytes := fun _ => List.replicate 32 0

/-- A degenerate hash function whose digest is all 0xff bytes: every digest
lies above both the PoW target and the PoS threshold. -/
def hashAllOnes : Bytes → Bytes := fun _ => List.replicate 32 255

/-- A small concrete block for witnesses. -/
def wb : Block := ⟨0, [1, 2], [3], [], []⟩

/-- A second concrete block for the nonce-scan witness. -/
def wb5 : Block := ⟨0, [7], [], [], []⟩

/-- A hash function that fails the target exactly on the nonce-0 and nonce-1
serializations of `wb5`, so the scan of `wb5` succeeds first at nonce 2. -/
def hashW5 : Bytes → Bytes := fun l =>
  if l = ProofOfWork.prepareData wb5 (Int.ofNat 0) ∨
     l = ProofOfWork.prepareData wb5 (Int.ofNat 1)
  then List.replicate 32 255 else List.replicate 32 0

/-- Two blocks that agree on previous hash, data and timestamp but differ in
their hash and validator-id fields. -/
def wb9a : Block := ⟨0, [1], [2], [9, 9], [8]⟩

/-- Companion block to `wb9a`. -/
def wb9b : Block := ⟨0, [1], [2], [], [7, 7, 7, 7, 7, 7, 7, 7]⟩

/-- Concrete block refuting C4: its recorded hash `[1]` is non-empty and is
not the hash PoS recomputes from the recorded validator1, yet `Validate`
accepts it (validator1's recomputed digest already falls below the
threshold). -/
def cxBlock : Block := ⟨0, [0], [], [1], [118, 97, 108, 105, 100, 97, 116, 111, 114, 49]⟩

/-- Registry refuting C6: the wrapping `uint64` accumulator of the source
diverges from the mathematical cumulative stake. -/
def cexReg : List Validator :=
  [⟨[49], 1, 1⟩, ⟨[50], 18446744073709551615, 0⟩, ⟨[51], 18446744073709551615, 0⟩]

/-- Draw refuting C6 on `cexReg`. -/
def cexDraw : Nat := 18446744073709551614

/-! Helper lemmas about the byte codecs. -/

/-- Both serializers read only the previous hash, the data and the timestamp
of the block, so setting hash and validator id leaves them unchanged. -/
theorem prepareData_setMined (b : Block) (vid hs : Bytes) (nonce : Int) (v : Validator) :
    ProofOfWork.prepareData (setMined b vid hs) nonce = ProofOfWork.prepareData b nonce ∧
    ProofOfStake.prepareData (setMined b vid hs) v = ProofOfStake.prepareData b v :=
  ⟨rfl, rfl⟩

/-- Interpretation of a small natural number as an int64 round-trips. -/
theorem toU64_ofNat (n : Nat) (h : n < 2 ^ 64) : toU64 (Int.ofNat n) = n := by
  unfold toU64
  rw [show Int.ofNat n = (n : Int) from rfl]
  omega

/-- Reinterpreting a `uint64` as an `int64` and reducing back mod 2^64 is the
identity below 2^64. -/
theorem toU64_ofU64 (u : Nat) (h : u < 2 ^ 64) : toU64 (ofU64 u) = u := by
  unfold ofU64 toU64
  split <;> omega

/-- Below 2^63 the `int64` reinterpretation of a `uint64` is nonnegative. -/
theorem ofU64_ofNat (n : Nat) (h : n < 2 ^ 63) : ofU64 n = Int.ofNat n := by
  unfold ofU64
  rw [if_pos h]
  rfl

/-- `IntToHex` always emits eight bytes. -/
theorem IntToHex_length (z : Int) : (IntToHex z).length = 8 := rfl

/-- Decoding the eight bytes written for a small natural number returns it. -/
theorem uint64BE_IntToHex (n : Nat) (h : n < 2 ^ 64) :
    uint64BE (IntToHex (Int.ofNat n)) = n := by
  simp only [IntToHex, uint64BE, toU64_ofNat n h]
  omega

/-- The Go encoder agrees with the plain big-endian digit encoder. -/
theorem IntToHex_eq_natBE (z : Int) : IntToHex z = natBE 8 (toU64 z) := by
  simp [IntToHex, natBE, Nat.div_div_eq_div_mul]

/-- Characterization of a successful mining scan: when the loop stops below
its bound, it stopped at the first qualifying nonce of its range and returns
that nonce's digest. -/
theorem runLoop_found (H : Bytes → Bytes) (b : Block) :
    ∀ (fuel start : Nat) (acc : Bytes) (n : Nat) (hs : Bytes),
      ProofOfWork.runLoop H b start fuel acc = (n, hs) → n < start + fuel →
      hs = H (ProofOfWork.prepareData b (Int.ofNat n)) ∧
      hashInt hs < powTarget ∧
      ∀ m, start ≤ m → m < n →
        ¬ hashInt (H (ProofOfWork.prepareData b (Int.ofNat m))) < powTarget := by
  intro fuel
  induction fuel with
  | zero =>
    intro start acc n hs hrun hlt
    injection hrun with h1 h2
    omega
  | succ fuel ih =>
    intro start acc n hs hrun hlt
    rw [ProofOfWork.runLoop] at hrun
    by_cases hfound : hashInt (H (ProofOfWork.prepareData b (Int.ofNat start))) < powTarget
    · rw [if_pos hfound] at hrun
      injection hrun with h1 h2
      subst h1
      subst h2
      exact ⟨rfl, hfound, fun m hm1 hm2 => absurd (Nat.lt_of_le_of_lt hm1 hm2) (Nat.lt_irrefl _)⟩
    · rw [if_neg hfound] at hrun
      obtain ⟨e1, e2, e3⟩ := ih (start + 1) _ n hs hrun (by omega)
      refine ⟨e1, e2, fun m hm1 hm2 => ?_⟩
      rcases Nat.eq_or_lt_of_le hm1 with he | hgt
      · rw [← he]
        exact hfound
      · exact e3 m hgt hm2

/-- Validation of a block whose validator id was set to an encoded small
nonce reduces to the target test on that nonce's recomputed digest. -/
theorem ValidateH_setMined (H : Bytes → Bytes) (b : Block) (n : Nat) (hs : Bytes)
    (h63 : n < 2 ^ 63) :
    ProofOfWork.ValidateH H (setMined b (IntToHex (Int.ofNat n)) hs) =
      some (decide (hashInt (H (ProofOfWork.prepareData b (Int.ofNat n))) < powTarget)) := by
  unfold ProofOfWork.ValidateH
  rw [if_neg (by simp [setMined, IntToHex])]
  have h1 : uint64BE (setMined b (IntToHex (Int.ofNat n)) hs).ValidatorID = n :=
    uint64BE_IntToHex n (by omega)
  rw [h1, ofU64_ofNat n h63]
  rfl

/-- C1: for every block whose fields are fixed and whose validator id and
hash are set from the pair returned by a successful run of the proof-of-work
scan, `Validate` returns true: the mined hash, recomputed from the decoded
nonce, is strictly below the target. -/
theorem claim_C1 :
    ∀ (H : Bytes → Bytes) (b : Block) (vid hs : Bytes),
      ProofOfWork.RunH H b = (vid, hs) →
      (ProofOfWork.runLoop H b 0 maxInt64 (List.replicate 32 0)).1 < maxInt64 →
      ProofOfWork.ValidateH H (setMined b vid hs) = some true := by
  intro H b vid hs hrun hlt
  rcases hloop : ProofOfWork.runLoop H b 0 maxInt64 (List.replicate 32 0) with ⟨n, h2⟩
  rw [hloop] at hlt
  unfold ProofOfWork.RunH at hrun
  rw [hloop] at hrun
  injection hrun with hv hh
  subst hv
  subst hh
  obtain ⟨he, hbelow, _⟩ := runLoop_found H b maxInt64 0 _ n h2 hloop (by omega)
  have h63 : n < 2 ^ 63 := by
    have : n < maxInt64 := hlt
    unfold maxInt64 at this
    omega
  rw [ValidateH_setMined H b n h2 h63]
  rw [← he]
  simp [hbelow]

/-- C1 witness: with the all-zero hash function, mining `wb` succeeds at
nonce 0 and the resulting block validates. -/
theorem claim_C1_witness :
    ProofOfWork.ValidateH hashAllZeros
      (setMined wb (IntToHex (Int.ofNat 0)) (List.replicate 32 0)) = some true :=
  claim_C1 hashAllZeros wb (IntToHex (Int.ofNat 0)) (List.replicate 32 0)
    (by decide) (by decide)

/-- C5: a successful proof-of-work scan starts at nonce 0, compares each
digest (read as an unsigned big-endian integer) against the target
2 to the power 256 - 16, and returns the least qualifying nonce, encoded as
its 8-byte big-endian representation, together with the winning digest. -/
theorem claim_C5 :
    ∀ (H : Bytes → Bytes) (b : Block) (n : Nat) (hs : Bytes),
      ProofOfWork.runLoop H b 0 maxInt64 (List.replicate 32 0) = (n, hs) →
      n < maxInt64 →
      powTarget = 2 ^ (256 - 16) ∧
      ProofOfWork.RunH H b = (natBE 8 n, hs) ∧
      hs = H (ProofOfWork.prepareData b (Int.ofNat n)) ∧
      hashInt hs < powTarget ∧
      ∀ m, m < n → ¬ hashInt (H (ProofOfWork.prepareData b (Int.ofNat m))) < powTarget := by
  intro H b n hs hloop hlt
  obtain ⟨he, hbelow, hleast⟩ := runLoop_found H b maxInt64 0 _ n hs hloop (by omega)
  have hn64 : n < 2 ^ 64 := by
    unfold maxInt64 at hlt
    omega
  refine ⟨by norm_num [powTarget, targetBits, Nat.shiftLeft_eq], ?_, he, hbelow,
    fun m hm => hleast m (Nat.zero_le m) hm⟩
  unfold ProofOfWork.RunH
  rw [hloop]
  simp only [IntToHex_eq_natBE, toU64_ofNat n hn64]

/-- C5 witness: with a hash function failing the target exactly at nonces 0
and 1 on `wb5`, the scan returns nonce 2, and nonce 1 indeed fails. -/
theorem claim_C5_witness :
    ProofOfWork.RunH hashW5 wb5 = (natBE 8 2, List.replicate 32 0) ∧
    ¬ hashInt (hashW5 (ProofOfWork.prepareData wb5 (Int.ofNat 1))) < powTarget :=
  ⟨(claim_C5 hashW5 wb5 2 (List.replicate 32 0) (by decide) (by decide)).2.1,
   (claim_C5 hashW5 wb5 2 (List.replicate 32 0) (by decide) (by decide)).2.2.2.2
     1 (by decide)⟩

/-- C2: proof-of-stake validation returns true exactly when some validator of
the fixed three-entry registry has a recomputed digest strictly below
2 to the power 255, and the check never reads the validator recorded in the
block. -/
theorem claim_C2 (b : Block) :
    (ProofOfStake.Validate b = true ↔
      ∃ v ∈ createMockValidators,
        hashInt (sha256 (ProofOfStake.prepareData b v)) < 2 ^ 255) ∧
    posThreshold = 2 ^ 255 ∧
    ∀ vid : Bytes, ProofOfStake.Validate (setValidatorID b vid) = ProofOfStake.Validate b := by
  have hth : posThreshold = 2 ^ 255 := by norm_num [posThreshold, Nat.shiftLeft_eq]
  refine ⟨?_, hth, fun vid => rfl⟩
  unfold ProofOfStake.Validate ProofOfStake.ValidateH
  rw [List.any_eq_true]
  simp [hth]

/-- C3: proof-of-stake `Run` returns the selected validator's address
together with the digest of the serialized block-plus-validator data,
whatever that digest is; no threshold comparison guards the return. -/
theorem claim_C3 :
    ∀ (H : Bytes → Bytes) (draw : Nat) (b : Block) (v : Validator),
      ProofOfStake.selectValidator createMockValidators draw = some v →
      ProofOfStake.RunH H createMockValidators draw b =
        some (v.Address, H (ProofOfStake.prepareData b v)) := by
  intro H draw b v hsel
  unfold ProofOfStake.RunH
  rw [hsel]
  rfl

/-- C3 witness: with the all-ones hash function the digest lies above the
threshold, and `Run` still returns it unconditionally. -/
theorem claim_C3_witness :
    ¬ hashInt (hashAllOnes (ProofOfStake.prepareData wb mockV1)) < posThreshold ∧
    ProofOfStake.RunH hashAllOnes createMockValidators 0 wb =
      some (mockV1.Address, hashAllOnes (ProofOfStake.prepareData wb mockV1)) :=
  ⟨by decide, claim_C3 hashAllOnes 0 wb mockV1 (by decide)⟩

/-- C7: on an empty registry, or a registry whose total stake is zero,
`selectValidator` hits the modulus-by-zero (a runtime divide-by-zero panic in
Go, `none` here); no explicit no-eligible-validators error exists in the
code. -/
theorem claim_C7_code :
    ProofOfStake.selectValidator [] 5 = none ∧
    ProofOfStake.selectValidator [⟨[97], 0, 0⟩] 7 = none :=
  ⟨rfl, rfl⟩

/-- C9: the serialize-and-hash pipeline is a deterministic function of the
previous hash, the payload, the timestamp, and the nonce or validator: the
hash and validator-id fields of the block do not influence it. -/
theorem claim_C9 :
    ∀ (b1 b2 : Block) (nonce : Int) (v : Validator),
      b1.PrevBlockHash = b2.PrevBlockHash → b1.Data = b2.Data →
      b1.Timestamp = b2.Timestamp →
      sha256 (ProofOfWork.prepareData b1 nonce) = sha256 (ProofOfWork.prepareData b2 nonce) ∧
      sha256 (ProofOfStake.prepareData b1 v) = sha256 (ProofOfStake.prepareData b2 v) := by
  intro b1 b2 nonce v h1 h2 h3
  have e1 : ProofOfWork.prepareData b1 nonce = ProofOfWork.prepareData b2 nonce := by
    unfold ProofOfWork.prepareData
    rw [h1, h2, h3]
  have e2 : ProofOfStake.prepareData b1 v = ProofOfStake.prepareData b2 v := by
    unfold ProofOfStake.prepareData
    rw [h1, h2, h3]
  exact ⟨congrArg sha256 e1, congrArg sha256 e2⟩

/-- C9 witness: two blocks differing only in hash and validator-id fields
yield byte-identical digests. -/
theorem claim_C9_witness :
    (wb9a.PrevBlockHash = wb9b.PrevBlockHash ∧ wb9a.Data = wb9b.Data ∧
      wb9a.Timestamp = wb9b.Timestamp ∧ wb9a ≠ wb9b) ∧
    sha256 (ProofOfWork.prepareData wb9a 3) = sha256 (ProofOfWork.prepareData wb9b 3) ∧
    sha256 (ProofOfStake.prepareData wb9a mockV1) =
      sha256 (ProofOfStake.prepareData wb9b mockV1) :=
  ⟨⟨rfl, rfl, rfl, by decide⟩, claim_C9 wb9a wb9b 3 mockV1 rfl rfl rfl⟩

/-- C10: proof-of-work validation requires at least eight bytes of validator
id; on anything shorter — in particular the empty validator id of a freshly
constructed, not-yet-mined block — the big-endian 64-bit decode panics
(`none`) instead of returning a boolean. -/
theorem claim_C10 :
    (∀ b : Block, b.ValidatorID.length < 8 → ProofOfWork.Validate b = none) ∧
    ∀ (ts : Int) (data prevHash : Bytes),
      ProofOfWork.Validate (freshBlock ts data prevHash) = none := by
  constructor
  · intro b hb
    unfold ProofOfWork.Validate ProofOfWork.ValidateH
    rw [if_pos hb]
  · intro ts d p
    unfold ProofOfWork.Validate ProofOfWork.ValidateH
    rw [if_pos (by simp [freshBlock])]

/-- C10 witness: a fresh block's empty validator id makes `Validate` panic. -/
theorem claim_C10_witness :
    (freshBlock 0 [] []).ValidatorID.length < 8 ∧
    ProofOfWork.Validate (freshBlock 0 [] []) = none :=
  ⟨by decide, claim_C10.1 (freshBlock 0 [] []) (by decide)⟩

/-- C8: both serializations are the delimiter-free concatenation, in fixed
order, of previous hash, payload, 8-byte big-endian timestamp, and the
algorithm-specific extras (PoW: 8-byte difficulty then 8-byte nonce; PoS:
address then 8-byte stake). -/
theorem claim_C8 :
    ∀ (b : Block) (nonce : Int) (v : Validator), v.Stake < 2 ^ 64 →
      ProofOfWork.prepareData b nonce =
        b.PrevBlockHash ++ b.Data ++ natBE 8 (toU64 b.Timestamp) ++
          natBE 8 targetBits ++ natBE 8 (toU64 nonce) ∧
      ProofOfStake.prepareData b v =
        b.PrevBlockHash ++ b.Data ++ natBE 8 (toU64 b.Timestamp) ++
          v.Address ++ natBE 8 v.Stake := by
  intro b nonce v hv
  constructor
  · simp only [ProofOfWork.prepareData, IntToHex_eq_natBE,
      show toU64 (Int.ofNat targetBits) = targetBits from by decide]
    simp [bytesJoin]
  · simp [ProofOfStake.prepareData, bytesJoin, IntToHex_eq_natBE,
      toU64_ofU64 v.Stake hv]

/-- C8 witness: concrete instance of the serialization shape. -/
theorem claim_C8_witness :
    mockV1.Stake < 2 ^ 64 ∧
    (ProofOfWork.prepareData wb 5 =
        wb.PrevBlockHash ++ wb.Data ++ natBE 8 (toU64 wb.Timestamp) ++
          natBE 8 targetBits ++ natBE 8 (toU64 5) ∧
      ProofOfStake.prepareData wb mockV1 =
        wb.PrevBlockHash ++ wb.Data ++ natBE 8 (toU64 wb.Timestamp) ++
          mockV1.Address ++ natBE 8 mockV1.Stake) :=
  ⟨by decide, claim_C8 wb 5 mockV1 (by decide)⟩

/-- Wrapping accumulation equals the plain stake sum absent overflow. -/
theorem totalStake_eq_sum :
    ∀ (vs : List Validator) (acc : Nat), acc + sumStakes vs < 2 ^ 64 →
      vs.foldl (fun a v => (a + v.Stake) % 2 ^ 64) acc = acc + sumStakes vs := by
  intro vs
  induction vs with
  | nil =>
    intro acc _
    simp [sumStakes]
  | cons v rest ih =>
    intro acc hov
    have hs : sumStakes (v :: rest) = v.Stake + sumStakes rest := by simp [sumStakes]
    rw [List.foldl_cons, Nat.mod_eq_of_lt (by omega), ih (acc + v.Stake) (by omega)]
    omega

/-- The source's accumulator walk equals the first-cumulative-stake search of
the spec, absent 64-bit overflow. -/
theorem selectLoop_eq_find (s : Nat) :
    ∀ (vs : List Validator) (acc : Nat), acc + sumStakes vs < 2 ^ 64 →
      ProofOfStake.selectLoop s vs acc =
        (((List.range vs.length).find? fun i => decide (s ≤ acc + cumStake vs i)).bind
          fun i => vs[i]?) := by
  intro vs
  induction vs with
  | nil =>
    intro acc _
    simp [ProofOfStake.selectLoop]
  | cons v rest ih =>
    intro acc hov
    have hs : sumStakes (v :: rest) = v.Stake + sumStakes rest := by simp [sumStakes]
    have hc0 : cumStake (v :: rest) 0 = v.Stake := by simp [cumStake]
    have hcs : ∀ i, cumStake (v :: rest) (i + 1) = v.Stake + cumStake rest i := by
      intro i
      simp [cumStake]
    have hm : (acc + v.Stake) % 2 ^ 64 = acc + v.Stake := Nat.mod_eq_of_lt (by omega)
    simp only [ProofOfStake.selectLoop, hm]
    by_cases hle : s ≤ acc + v.Stake
    · rw [if_pos hle, List.length_cons, List.range_succ_eq_map,
        List.find?_cons_of_pos _ (by simp [hc0, hle])]
      simp
    · rw [if_neg hle, ih (acc + v.Stake) (by omega), List.length_cons,
        List.range_succ_eq_map, List.find?_cons_of_neg _ (by simp [hc0, hle]),
        List.find?_map]
      have hpred : ((fun i => decide (s ≤ acc + cumStake (v :: rest) i)) ∘ Nat.succ)
          = fun i => decide (s ≤ acc + v.Stake + cumStake rest i) := by
        funext i
        simp [Function.comp, hcs, Nat.add_assoc]
      rw [hpred]
      cases hfind : (List.range rest.length).find?
          (fun i => decide (s ≤ acc + v.Stake + cumStake rest i)) with
      | none => simp [hfind]
      | some j => simp [hfind]

/-- When the draw is at most the total stake, the spec search succeeds. -/
theorem specSelect_isSome (vs : List Validator) (s : Nat) (hne : vs ≠ [])
    (hs : s ≤ sumStakes vs) : specSelect vs s ≠ none := by
  have hlen : 0 < vs.length := List.length_pos.mpr hne
  have hlast : cumStake vs (vs.length - 1) = sumStakes vs := by
    unfold cumStake sumStakes
    rw [show vs.length - 1 + 1 = vs.length from by omega, List.take_length]
  have hsome : ((List.range vs.length).find? fun i => decide (s ≤ cumStake vs i)).isSome := by
    rw [List.find?_isSome]
    exact ⟨vs.length - 1, List.mem_range.mpr (by omega), by simp [hlast, hs]⟩
  obtain ⟨j, hj⟩ := Option.isSome_iff_exists.mp hsome
  have hjlen : j < vs.length := List.mem_range.mp (List.mem_of_find?_eq_some hj)
  unfold specSelect
  rw [hj]
  simp [List.getElem?_eq_getElem hjlen]

/-- C6 counterexample: on a registry whose stakes overflow the 64-bit
accumulator the code picks the third validator, while the first validator in
registry order whose cumulative stake meets the draw is the second. -/
theorem claim_C6_cex :
    cexReg ≠ [] ∧
    0 < ProofOfStake.totalStake cexReg ∧
    cexDraw % ProofOfStake.totalStake cexReg < ProofOfStake.totalStake cexReg ∧
    ProofOfStake.selectValidator cexReg cexDraw =
      some ⟨[51], 18446744073709551615, 0⟩ ∧
    specSelect cexReg (cexDraw % ProofOfStake.totalStake cexReg) =
      some ⟨[50], 18446744073709551615, 0⟩ ∧
    (⟨[51], 18446744073709551615, 0⟩ : Validator) ≠ ⟨[50], 18446744073709551615, 0⟩ :=
  ⟨by decide, by decide, by decide, by decide, by decide, by decide⟩

/-- C6 amended: absent 64-bit overflow of the stake sums, on every non-empty
registry with positive total stake the code returns the first validator in
registry order whose cumulative stake meets or exceeds the reduced draw, the
defensive fallback is never reached, and a single-validator registry always
yields its validator, whatever the draw. -/
theorem claim_C6_amended :
    (∀ (vs : List Validator) (draw : Nat),
      vs ≠ [] → 0 < sumStakes vs → sumStakes vs < 2 ^ 64 →
      ProofOfStake.selectValidator vs draw = specSelect vs (draw % sumStakes vs) ∧
      ProofOfStake.selectLoop (draw % sumStakes vs) vs 0 ≠ none ∧
      ProofOfStake.selectValidator vs draw ≠ none) ∧
    ∀ (v : Validator) (draw : Nat), 0 < v.Stake → v.Stake < 2 ^ 64 →
      ProofOfStake.selectValidator [v] draw = some v := by
  have main : ∀ (vs : List Validator) (draw : Nat),
      vs ≠ [] → 0 < sumStakes vs → sumStakes vs < 2 ^ 64 →
      ProofOfStake.selectValidator vs draw = specSelect vs (draw % sumStakes vs) ∧
      ProofOfStake.selectLoop (draw % sumStakes vs) vs 0 ≠ none ∧
      ProofOfStake.selectValidator vs draw ≠ none := by
    intro vs draw hne hpos hov
    have htot : ProofOfStake.totalStake vs = sumStakes vs := by
      unfold ProofOfStake.totalStake
      rw [totalStake_eq_sum vs 0 (by omega)]
      omega
    have hslt : draw % sumStakes vs < sumStakes vs := Nat.mod_lt _ hpos
    have hloop : ProofOfStake.selectLoop (draw % sumStakes vs) vs 0 =
        specSelect vs (draw % sumStakes vs) := by
      rw [selectLoop_eq_find (draw % sumStakes vs) vs 0 (by omega)]
      unfold specSelect
      simp only [Nat.zero_add]
    have hnn : specSelect vs (draw % sumStakes vs) ≠ none :=
      specSelect_isSome vs (draw % sumStakes vs) hne hslt.le
    obtain ⟨w, hw⟩ : ∃ w, specSelect vs (draw % sumStakes vs) = some w := by
      cases hsp : specSelect vs (draw % sumStakes vs) with
      | none => exact absurd hsp hnn
      | some w => exact ⟨w, rfl⟩
    have hsel : ProofOfStake.selectValidator vs draw =
        specSelect vs (draw % sumStakes vs) := by
      unfold ProofOfStake.selectValidator
      rw [htot, if_neg (by omega)]
      simp only [hloop, hw]
    exact ⟨hsel, by rw [hloop]; exact hnn, by rw [hsel]; exact hnn⟩
  refine ⟨main, ?_⟩
  intro v draw h0 h64
  obtain ⟨h1, _, _⟩ :=
    main [v] draw (by simp) (by simpa [sumStakes]) (by simpa [sumStakes])
  rw [h1]
  have hs1 : sumStakes [v] = v.Stake := by simp [sumStakes]
  rw [hs1]
  have hlt : draw % v.Stake < v.Stake := Nat.mod_lt _ h0
  unfold specSelect
  rw [show List.range [v].length = [0] from rfl,
    List.find?_cons_of_pos _ (by simp [cumStake]; exact hlt.le)]
  simp

/-- C6 witness: the amended statement applied to the mock registry and to a
concrete single-validator registry. -/
theorem claim_C6_witness :
    ProofOfStake.selectValidator createMockValidators 7000 =
      specSelect createMockValidators (7000 % sumStakes createMockValidators) ∧
    ProofOfStake.selectValidator [⟨[97], 5, 5⟩] 123 = some ⟨[97], 5, 5⟩ :=
  ⟨(claim_C6_amended.1 createMockValidators 7000 (by decide) (by decide) (by decide)).1,
   claim_C6_amended.2 ⟨[97], 5, 5⟩ 123 (by decide) (by decide)⟩

/-- Evaluation of `selectValidator` on the mock registry: the draw reduced
mod 6000 picks validator1 up to 1000, validator2 up to 3000, validator3
otherwise. -/
theorem selectValidator_mock (draw : Nat) :
    ProofOfStake.selectValidator createMockValidators draw =
      some (if draw % 6000 ≤ 1000 then mockV1
            else if draw % 6000 ≤ 3000 then mockV2 else mockV3) := by
  have htot : ProofOfStake.totalStake createMockValidators = 6000 := by decide
  unfold ProofOfStake.selectValidator
  rw [htot, if_neg (by norm_num)]
  have hlt : draw % 6000 < 6000 := Nat.mod_lt _ (by norm_num)
  have h6 : draw % 6000 ≤ 6000 := hlt.le
  by_cases h1 : draw % 6000 ≤ 1000
  · simp [ProofOfStake.selectLoop, createMockValidators, h1, mockV1]
  · by_cases h2 : draw % 6000 ≤ 3000
    · simp [ProofOfStake.selectLoop, createMockValidators, h1, h2, mockV2]
    · simp [ProofOfStake.selectLoop, createMockValidators, h1, h2, h6, mockV3]

set_option maxRecDepth 40000 in
/-- C4 counterexample: `cxBlock` carries the non-empty hash `[1]`, different
from the hash recomputed from its recorded validator identifier, yet
proof-of-stake validation accepts it — so the stored-hash equality is not
the condition `Validate` checks. -/
theorem claim_C4_cex :
    cxBlock.Hash ≠ [] ∧
    ProofOfStake.Validate cxBlock = true ∧
    posRecompute sha256 cxBlock ≠ some cxBlock.Hash :=
  ⟨by decide, by decide, by decide⟩

/-- C4 amended: a hash set, together with the identifier, from a successful
run equals the hash recomputed from the recorded identifier, for both
algorithms; validation, however, never checks that equality — it ignores the
stored hash field entirely. -/
theorem claim_C4_amended :
    (∀ (H : Bytes → Bytes) (b : Block) (n : Nat) (hs : Bytes),
      ProofOfWork.runLoop H b 0 maxInt64 (List.replicate 32 0) = (n, hs) →
      n < maxInt64 →
      powRecompute H (setMined b (IntToHex (Int.ofNat n)) hs) = some hs) ∧
    (∀ (H : Bytes → Bytes) (draw : Nat) (b : Block) (a hs : Bytes),
      ProofOfStake.RunH H createMockValidators draw b = some (a, hs) →
      posRecompute H (setMined b a hs) = some hs) ∧
    ∀ (H : Bytes → Bytes) (b : Block) (x y : Bytes),
      ProofOfWork.ValidateH H (setHash b x) = ProofOfWork.ValidateH H (setHash b y) ∧
      ProofOfStake.ValidateH H createMockValidators (setHash b x) =
        ProofOfStake.ValidateH H createMockValidators (setHash b y) := by
  refine ⟨?_, ?_, fun H b x y => ⟨rfl, rfl⟩⟩
  · intro H b n hs hloop hlt
    obtain ⟨he, _, _⟩ := runLoop_found H b maxInt64 0 _ n hs hloop (by omega)
    have h63 : n < 2 ^ 63 := by
      unfold maxInt64 at hlt
      omega
    unfold powRecompute
    rw [if_neg (by simp [setMined, IntToHex])]
    have h1 : uint64BE (setMined b (IntToHex (Int.ofNat n)) hs).ValidatorID = n :=
      uint64BE_IntToHex n (by omega)
    rw [h1, ofU64_ofNat n h63, he]
    rfl
  · intro H draw b a hs hrun
    unfold ProofOfStake.RunH at hrun
    rw [selectValidator_mock] at hrun
    split_ifs at hrun <;>
      · simp only [Option.map_some', Option.some.injEq, Prod.mk.injEq] at hrun
        obtain ⟨ha, hh⟩ := hrun
        subst ha
        subst hh
        rfl

/-- C4 witness: both recomputation equalities at concrete runs with the
all-zero hash function. -/
theorem claim_C4_witness :
    powRecompute hashAllZeros
      (setMined wb (IntToHex (Int.ofNat 0)) (List.replicate 32 0)) =
      some (List.replicate 32 0) ∧
    posRecompute hashAllZeros
      (setMined wb mockV1.Address (hashAllZeros (ProofOfStake.prepareData wb mockV1))) =
      some (hashAllZeros (ProofOfStake.prepareData wb mockV1)) :=
  ⟨claim_C4_amended.1 hashAllZeros wb 0 (List.replicate 32 0) (by decide) (by decide),
   claim_C4_amended.2.1 hashAllZeros 0 wb mockV1.Address
     (hashAllZeros (ProofOfStake.prepareData wb mockV1)) (by decide)⟩

end GoChain
